import Mathlib

/-!
Job scheduler client (`src/App.js`) and the next-run calculator.

A shallow embedding of the React component `App` of `src/App.js`:

* the three pieces of component state (`jobs`, `logs`, `form`);
* the async functions `fetchJobs`, `fetchLogs`, `handleSubmit`, `toggleJob`
  and `runJobNow`, each cut at its `await` into the part that runs
  synchronously and the part that resumes when the awaited promise settles;
* the rendered table rows and log items;
* an event-driven step function over the handlers the component registers.

The browser built-ins the component calls (`fetch`, `JSON.stringify`, `alert`,
`console.error`, truthiness) are modelled by small executable definitions;
`new Date(x).toLocaleString()` is locale dependent and is kept symbolic
(`Content.localeDate`); the conversion of a job id to a string inside a
template literal is the browser's as well, and an id is carried as the string
it converts to (`JobId.toText`).

The last part models `compute_next_run` of the scheduler service, which is not
part of `src/`, from the specification's text.
-/

namespace JobScheduler

/-! ## Data model of the REST payloads -/

/-- A job id. The component uses an id in two places only, inside the template
literal of a request path and as the key of a row, and both take the string
the built-in conversion to string makes of the value (`7` for the number 7,
`1e+21` for the number 1e21, a string for itself). An id is carried as that
string, `toText`; the conversion itself is the browser's and is not modelled. -/
structure JobId where
  toText : String
deriving DecidableEq, Repr

/-- Elements of the array returned by `GET /jobs`; `last_run` and `next_run`
are an ISO-8601 string or `null`. -/
structure Job where
  id : JobId
  name : String
  type : String
  time : String
  enabled : Bool
  last_run : Option String
  next_run : Option String
deriving DecidableEq, Repr

/-- Outcome recorded for one execution. -/
inductive Status
  | Success
  | Failure
  | Timeout
deriving DecidableEq, Repr

/-- Elements of the array returned by `GET /logs`. -/
structure LogEntry where
  id : Nat
  job_id : JobId
  job_name : String
  run_time : String
  output : String
  status : Status
deriving DecidableEq, Repr

/-! ## JavaScript values used by the component -/

/-- Truthiness of a JavaScript string: every string but the empty one. -/
def truthyString (s : String) : Bool := s != ""

/-- Truthiness of a value that is a string or `null`. -/
def truthy : Option String → Bool
  | none => false
  | some s => truthyString s

/-- The expression `a || b` on strings. -/
def orElse (a b : String) : String := if truthyString a then a else b

/-- A plain object whose property values are strings: its own properties in
insertion order. -/
abbrev JsObject := List (String × String)

/-- Property read `obj.key`; `none` stands for `undefined`. -/
def getProp : JsObject → String → Option String
  | [], _ => none
  | (k, v) :: rest, key => if k = key then some v else getProp rest key

/-- Property write on a copy: an existing key keeps its position and takes the
new value, a new key is appended. -/
def setProp : JsObject → String → String → JsObject
  | [], key, v => [(key, v)]
  | (k, w) :: rest, key, v =>
    if k = key then (k, v) :: rest else (k, w) :: setProp rest key v

/-- The object literal that spreads `obj` and then sets `key`. -/
def spreadWith (obj : JsObject) (key v : String) : JsObject := setProp obj key v

/-- Hexadecimal digit, lower case. -/
def hexDigit (n : Nat) : Char :=
  if n < 10 then Char.ofNat (48 + n) else Char.ofNat (87 + n)

/-- Escape of one character by `JSON.stringify`. -/
def quoteChar (c : Char) : List Char :=
  let bs := Char.ofNat 92
  if c.toNat = 8 then [bs, 'b']
  else if c.toNat = 9 then [bs, 't']
  else if c.toNat = 10 then [bs, 'n']
  else if c.toNat = 12 then [bs, 'f']
  else if c.toNat = 13 then [bs, 'r']
  else if c.toNat = 34 then [bs, Char.ofNat 34]
  else if c.toNat = 92 then [bs, bs]
  else if c.toNat < 32 then
    [bs, 'u', '0', '0', hexDigit (c.toNat / 16), hexDigit (c.toNat % 16)]
  else [c]

/-- The quoted form of a string produced by `JSON.stringify`. -/
def quoteJSONString (s : String) : String :=
  String.mk ([Char.ofNat 34] ++ (s.data.map quoteChar).flatten ++ [Char.ofNat 34])

/-- One `"key":"value"` member. -/
def jsonMember (kv : String × String) : String :=
  quoteJSONString kv.1 ++ ":" ++ quoteJSONString kv.2

/-- The built-in `JSON.stringify` on an object with string values: the members
in property order, separated by commas, between braces. -/
def JSON_stringify (obj : JsObject) : String :=
  String.mk [Char.ofNat 123] ++ ",".intercalate (obj.map jsonMember)
    ++ String.mk [Char.ofNat 125]

/-- An `Error` object. -/
structure JsError where
  message : String
deriving DecidableEq, Repr

/-! ## HTTP -/

/-- The request methods the component uses. -/
inductive Method
  | GET
  | POST
deriving DecidableEq, Repr

/-- What one call of `fetch` sends. -/
structure Request where
  method : Method
  url : String
  headers : List (String × String)
  body : Option String
deriving DecidableEq, Repr

/-- A settled response, with the text its body reads as. -/
structure Response where
  status : Nat
  text : String
deriving DecidableEq, Repr

/-- The `ok` flag of a response: status in the range 200 to 299. -/
def Response.ok (res : Response) : Bool :=
  decide (200 ≤ res.status) && decide (res.status ≤ 299)

/-! ## Component state -/

/-- An async function of the component suspended at its `await`. -/
inductive Pending
  | fetchJobs
  | fetchLogs
  | handleSubmit
  | toggleJob
  | runJobNow
deriving DecidableEq, Repr

/-- What the component does to the outside, in the order it happens. -/
inductive Effect
  | request (r : Request)
  | alert (msg : String)
  | consoleError (label : String) (err : JsError)
  | preventDefault
  | unhandledRejection (err : JsError)
deriving DecidableEq, Repr

/-- The three `useState` cells, the suspended async functions and the effects
issued so far. -/
structure State where
  jobs : List Job
  logs : List LogEntry
  form : JsObject
  pending : List Pending
  trace : List Effect
deriving DecidableEq, Repr

/-- The value every `setForm` reset and the initial `useState` use. -/
def emptyForm : JsObject := [("name", ""), ("type", "hourly"), ("time", "")]

/-- The state of the first render: the `useState` initial values. -/
def initial : State :=
  { jobs := [], logs := [], form := emptyForm, pending := [], trace := [] }

/-- Result of an async function: it fulfils, or rejects with an error. -/
abbrev Outcome := Except JsError Unit

/-- Append one effect. -/
def emit (s : State) (e : Effect) : State := { s with trace := s.trace ++ [e] }

/-- Suspend an async function at its `await`. -/
def suspend (s : State) (p : Pending) : State := { s with pending := s.pending ++ [p] }

/-! ## The async functions -/

/-- The function `fetchJobs` up to its first `await`: `GET /jobs`. -/
def fetchJobs (s : State) : State :=
  suspend (emit s (.request
    { method := .GET, url := "http://localhost:8000/jobs", headers := [], body := none }))
    .fetchJobs

/-- The function `fetchJobs` after `res.json()` produced `data`: `setJobs(data)`. -/
def fetchJobsResume (s : State) (data : List Job) : State := { s with jobs := data }

/-- The function `fetchLogs` up to its first `await`: `GET /logs`. -/
def fetchLogs (s : State) : State :=
  suspend (emit s (.request
    { method := .GET, url := "http://localhost:8000/logs", headers := [], body := none }))
    .fetchLogs

/-- The function `fetchLogs` after `res.json()` produced `data`: `setLogs(data)`. -/
def fetchLogsResume (s : State) (data : List LogEntry) : State := { s with logs := data }

/-- The mount effect (`useEffect` with an empty dependency list). -/
def useEffectMount (s : State) : State := fetchLogs (fetchJobs s)

/-- The request `handleSubmit` sends. -/
def submitRequest (form : JsObject) : Request :=
  { method := .POST
    url := "http://localhost:8000/jobs"
    headers := [("Content-Type", "application/json")]
    body := some (JSON_stringify form) }

/-- The function `handleSubmit` up to its `await`. -/
def handleSubmit (s : State) : State :=
  suspend (emit (emit s .preventDefault) (.request (submitRequest s.form))) .handleSubmit

/-- The function `handleSubmit` once the `POST` resolved with `res`: the
response is not read. -/
def handleSubmitResume (s : State) (_res : Response) : State :=
  fetchJobs { s with form := emptyForm }

/-- The request `toggleJob(id)` sends. -/
def toggleRequest (id : JobId) : Request :=
  { method := .POST
    url := "http://localhost:8000/jobs/" ++ id.toText ++ "/toggle"
    headers := []
    body := none }

/-- The function `toggleJob` up to its `await`. -/
def toggleJob (s : State) (id : JobId) : State :=
  suspend (emit s (.request (toggleRequest id))) .toggleJob

/-- The function `toggleJob` once the `POST` resolved. -/
def toggleJobResume (s : State) (_res : Response) : State := fetchJobs s

/-- The request `runJobNow(id)` sends. -/
def runRequest (id : JobId) : Request :=
  { method := .POST
    url := "http://localhost:8000/jobs/" ++ id.toText ++ "/run"
    headers := []
    body := none }

/-- The function `runJobNow` up to its `await`. -/
def runJobNow (s : State) (id : JobId) : State :=
  suspend (emit s (.request (runRequest id))) .runJobNow

/-- The `try` block of `runJobNow` after the `POST` resolved with `res`: it
throws on a response that is not ok, otherwise alerts and re-fetches. -/
def runJobNowTry (s : State) (res : Response) : Outcome × State :=
  if !res.ok then
    (.error { message := orElse res.text "Failed to run job" }, s)
  else
    (.ok (), fetchLogs (fetchJobs (emit s (.alert "Job triggered successfully!"))))

/-- The `catch` block of `runJobNow`. -/
def runJobNowCatch (s : State) (error : JsError) : Outcome × State :=
  (.ok (), emit (emit s (.consoleError "Error running job:" error))
    (.alert "Failed to trigger job. See console for more."))

/-- The function `runJobNow` once the `POST` resolved with `res`. -/
def runJobNowResume (s : State) (res : Response) : Outcome × State :=
  match runJobNowTry s res with
  | (.ok (), s') => (.ok (), s')
  | (.error e, s') => runJobNowCatch s' e

/-- An async handler nobody awaits: a rejection ends as an unhandled rejection. -/
def settle : Outcome × State → State
  | (.ok (), s) => s
  | (.error e, s) => emit s (.unhandledRejection e)

/-! ## Rendering -/

/-- The content of a table cell or of a piece of a list item. -/
inductive Content
  | text (s : String)
  | bold (s : String)
  | localeDate (raw : String)
deriving DecidableEq, Repr

/-- What a row button calls when clicked. -/
inductive Action
  | toggleJob (id : JobId)
  | runJobNow (id : JobId)
deriving DecidableEq, Repr

/-- A button with its label and click handler. -/
structure Button where
  label : String
  onClick : Action
deriving DecidableEq, Repr

/-- One table row, a field for each column of the header. -/
structure JobRow where
  key : JobId
  name : Content
  type : Content
  time : Content
  enabled : Content
  lastRun : Content
  nextRun : Content
  toggle : Button
  runNow : Button
deriving DecidableEq, Repr

/-- One item of the log list. -/
structure LogItem where
  key : Nat
  children : List Content
deriving DecidableEq, Repr

/-- The cell for `last_run` and `next_run`: the localised date of a truthy
value, a dash otherwise. -/
def dateCell (v : Option String) : Content :=
  if truthy v then
    match v with
    | some raw => .localeDate raw
    | none => .text "-"
  else .text "-"

/-- The body of `jobs.map` in the table. -/
def renderJob (job : Job) : JobRow :=
  { key := job.id
    name := .text job.name
    type := .text job.type
    time := .text job.time
    enabled := .text (if job.enabled then "✅" else "❌")
    lastRun := dateCell job.last_run
    nextRun := dateCell job.next_run
    toggle := { label := "Toggle", onClick := .toggleJob job.id }
    runNow := { label := "Run Now", onClick := .runJobNow job.id } }

/-- The body of `logs.map` in the log list. -/
def renderLog (i : Nat) (log : LogEntry) : LogItem :=
  { key := i
    children :=
      [.localeDate log.run_time, .text " — ", .bold log.job_name, .text ": ",
        .text log.output] }

/-- The table body. -/
def renderJobs (jobs : List Job) : List JobRow := jobs.map renderJob

/-- The log list. -/
def renderLogs (logs : List LogEntry) : List LogItem := logs.mapIdx renderLog

/-- The placeholder of the time input. -/
def timePlaceholder (type : Option String) : String :=
  if type = some "hourly" then "Minute (e.g. 15)"
  else if type = some "daily" then "HH:MM (e.g. 14:30)"
  else "Day HH:MM (e.g. mon 12:45)"

/-- The form as rendered: the values of the three controls. -/
structure FormView where
  name : Option String
  type : Option String
  placeholder : String
  time : Option String
deriving DecidableEq, Repr

/-- What `App` returns. -/
structure View where
  form : FormView
  rows : List JobRow
  items : List LogItem
deriving DecidableEq, Repr

/-- The render function of the component. -/
def render (s : State) : View :=
  { form :=
      { name := getProp s.form "name"
        type := getProp s.form "type"
        placeholder := timePlaceholder (getProp s.form "type")
        time := getProp s.form "time" }
    rows := renderJobs s.jobs
    items := renderLogs s.logs }

/-! ## Events -/

/-- What can happen to the mounted component: user input on the rendered
controls, time passing, and the settling of a promise it awaits. -/
inductive Event
  | changeName (v : String)
  | changeType (v : String)
  | changeTime (v : String)
  | submitForm
  | clickToggle (row : Nat)
  | clickRunNow (row : Nat)
  | idle (ms : Nat)
  | jobsArrived (data : List Job)
  | logsArrived (data : List LogEntry)
  | responded (p : Pending) (res : Response)
  | rejected (p : Pending) (err : JsError)
deriving DecidableEq, Repr

/-- The `onChange` handler of the name input. -/
def onChangeName (s : State) (v : String) : State :=
  { s with form := spreadWith s.form "name" v }

/-- The `onChange` handler of the type select. -/
def onChangeType (s : State) (v : String) : State :=
  { s with form := spreadWith s.form "type" v }

/-- The `onChange` handler of the time input. -/
def onChangeTime (s : State) (v : String) : State :=
  { s with form := spreadWith s.form "time" v }

/-- The browser's check of the two inputs marked `required`. -/
def requiredFilled (v : FormView) : Bool :=
  truthy v.name && truthy v.time

/-- Run the click handler of a button. -/
def click (s : State) : Action → State
  | .toggleJob id => toggleJob s id
  | .runJobNow id => runJobNow s id

/-- Take one suspended function off the pending list. -/
def resume (s : State) (p : Pending) : State := { s with pending := s.pending.erase p }

/-- One event on the mounted component. A settling event for a function that
is not suspended does not occur and leaves the state as it is; the response to
`fetchJobs` or `fetchLogs` is delivered with its decoded body, as `jobsArrived`
or `logsArrived`; the component registers no timer, so time passing runs no
code. -/
def step (s : State) : Event → State
  | .changeName v => onChangeName s v
  | .changeType v => onChangeType s v
  | .changeTime v => onChangeTime s v
  | .submitForm => if requiredFilled (render s).form then handleSubmit s else s
  | .clickToggle row =>
    match (render s).rows[row]? with
    | some r => click s r.toggle.onClick
    | none => s
  | .clickRunNow row =>
    match (render s).rows[row]? with
    | some r => click s r.runNow.onClick
    | none => s
  | .idle _ => s
  | .jobsArrived data =>
    if Pending.fetchJobs ∈ s.pending then fetchJobsResume (resume s .fetchJobs) data else s
  | .logsArrived data =>
    if Pending.fetchLogs ∈ s.pending then fetchLogsResume (resume s .fetchLogs) data else s
  | .responded p res =>
    if p ∈ s.pending then
      match p with
      | .handleSubmit => handleSubmitResume (resume s p) res
      | .toggleJob => toggleJobResume (resume s p) res
      | .runJobNow => settle (runJobNowResume (resume s p) res)
      | .fetchJobs => s
      | .fetchLogs => s
    else s
  | .rejected p err =>
    if p ∈ s.pending then
      match p with
      | .runJobNow => settle (runJobNowCatch (resume s p) err)
      | _ => settle (.error err, resume s p)
    else s

/-- The component right after mounting: first render, then the mount effect. -/
def mounted : State := useEffectMount initial

/-- Run a sequence of events. -/
def run (s : State) (evs : List Event) : State := evs.foldl step s

/-- The requests among a list of effects, in order. -/
def requestsOf (t : List Effect) : List Request :=
  t.filterMap fun e => match e with
    | .request r => some r
    | _ => none

/-- The alerts among a list of effects, in order. -/
def alertsOf (t : List Effect) : List String :=
  t.filterMap fun e => match e with
    | .alert m => some m
    | _ => none

/-- The effects a step adds to the trace. -/
def issued (s : State) (ev : Event) : List Effect := (step s ev).trace.drop s.trace.length

/-! ## The next-run calculator of the scheduler service

The scheduler service is not among the sources; the definitions of this
section follow section 4.2 of the specification. A timestamp counts the
seconds since 1970-01-01 00:00:00, a Thursday, in the scheduler's fixed time
zone, without daylight-saving shifts. -/

/-- Modelled from the spec: the weekday of a weekly schedule, `Mon` to `Sun`
(the service's schedule type is not in the sources). -/
inductive Weekday
  | Mon
  | Tue
  | Wed
  | Thu
  | Fri
  | Sat
  | Sun
deriving DecidableEq, Repr

/-- Modelled from the spec: position of a weekday in the week, Monday first
(the service's schedule type is not in the sources). -/
def Weekday.index : Weekday → Int
  | .Mon => 0
  | .Tue => 1
  | .Wed => 2
  | .Thu => 3
  | .Fri => 4
  | .Sat => 5
  | .Sun => 6

/-- Modelled from the spec: the tagged variant `ScheduleSpec` of section 3
(the service's schedule type is not in the sources). -/
inductive ScheduleSpec
  | Hourly (minute : Nat)
  | Daily (hour minute : Nat)
  | Weekly (weekday : Weekday) (hour minute : Nat)
deriving DecidableEq, Repr

/-- Modelled from the spec: the ranges of section 3, minute 0 to 59 and hour 0
to 23 (the service's validator is not in the sources). -/
def ScheduleSpec.valid : ScheduleSpec → Bool
  | .Hourly m => decide (m < 60)
  | .Daily h m => decide (h < 24) && decide (m < 60)
  | .Weekly _ h m => decide (h < 24) && decide (m < 60)

/-- Modelled from the spec: weekday position of a timestamp, Monday being 0;
day 0 of the epoch is a Thursday (the service's clock is not in the sources). -/
def weekdayOf (t : Int) : Int := (t / 86400 + 3) % 7

/-- Modelled from the spec: a trigger point of a schedule, that is a timestamp
with the schedule's minute of the hour (and hour of the day, and weekday) and
second 0 (the service's calculator is not in the sources). -/
def isTrigger : ScheduleSpec → Int → Prop
  | .Hourly m, t => t % 3600 = (m : Int) * 60
  | .Daily h m, t => t % 86400 = (h : Int) * 3600 + (m : Int) * 60
  | .Weekly w h m, t =>
    weekdayOf t = w.index ∧ t % 86400 = (h : Int) * 3600 + (m : Int) * 60

/-- Modelled from the spec: `compute_next_run(spec, from)` of section 4.2 (the
service's calculator is not in the sources). The candidate is the trigger in
the hour (day, week day) of `t0`; when it is not after `t0` the result is one
period later. -/
def compute_next_run : ScheduleSpec → Int → Int
  | .Hourly m, t0 =>
    let c := t0 / 3600 * 3600 + (m : Int) * 60
    if t0 < c then c else c + 3600
  | .Daily h m, t0 =>
    let c := t0 / 86400 * 86400 + (h : Int) * 3600 + (m : Int) * 60
    if t0 < c then c else c + 86400
  | .Weekly w h m, t0 =>
    let ahead := (w.index - weekdayOf t0) % 7
    let c := (t0 / 86400 + ahead) * 86400 + (h : Int) * 3600 + (m : Int) * 60
    if t0 < c then c else c + 7 * 86400

/-- Modelled from the spec: the timestamp of `hour:minute:second` on the day
`day` of the epoch, for writing the examples of section 8. -/
def clock (day hour minute second : Int) : Int :=
  day * 86400 + hour * 3600 + minute * 60 + second

/-! ## The five request shapes -/

/-- The five shapes of a request named by the REST surface: `GET /jobs`,
`GET /logs`, `POST /jobs`, `POST /jobs/:id/toggle` and `POST /jobs/:id/run`. -/
def IsApiShape (r : Request) : Prop :=
  (r.method = .GET ∧ r.url = "http://localhost:8000/jobs") ∨
  (r.method = .GET ∧ r.url = "http://localhost:8000/logs") ∨
  (r.method = .POST ∧ r.url = "http://localhost:8000/jobs") ∨
  (r.method = .POST ∧
    ∃ id : JobId, r.url = "http://localhost:8000/jobs/" ++ id.toText ++ "/toggle") ∨
  (r.method = .POST ∧
    ∃ id : JobId, r.url = "http://localhost:8000/jobs/" ++ id.toText ++ "/run")

/-- The request of `fetchJobs`. -/
def getJobs : Request :=
  { method := .GET, url := "http://localhost:8000/jobs", headers := [], body := none }

/-- The request of `fetchLogs`. -/
def getLogs : Request :=
  { method := .GET, url := "http://localhost:8000/logs", headers := [], body := none }

/-- Events that come from the user: input, submit and the row buttons. -/
def Event.isUserAction : Event → Bool
  | .changeName _ => true
  | .changeType _ => true
  | .changeTime _ => true
  | .submitForm => true
  | .clickToggle _ => true
  | .clickRunNow _ => true
  | _ => false

/-- A job the server sent: an element of the body of a `GET /jobs` response
among the events `evs`. -/
def Received (evs : List Event) (job : Job) : Prop :=
  ∃ data : List Job, Event.jobsArrived data ∈ evs ∧ job ∈ data

/-- The requests the claim allows along the events `evs`, in full: the two
fetches, the submit of a form object with the three fields, and the toggle and
run of the id of a job the server sent. -/
def Allowed (evs : List Event) (r : Request) : Prop :=
  r = { method := .GET, url := "http://localhost:8000/jobs", headers := [], body := none } ∨
  r = { method := .GET, url := "http://localhost:8000/logs", headers := [], body := none } ∨
  (∃ n t tm : String, r =
    { method := .POST
      url := "http://localhost:8000/jobs"
      headers := [("Content-Type", "application/json")]
      body := some (JSON_stringify [("name", n), ("type", t), ("time", tm)]) }) ∨
  (∃ job : Job, Received evs job ∧ r =
    { method := .POST
      url := "http://localhost:8000/jobs/" ++ job.id.toText ++ "/toggle"
      headers := []
      body := none }) ∨
  (∃ job : Job, Received evs job ∧ r =
    { method := .POST
      url := "http://localhost:8000/jobs/" ++ job.id.toText ++ "/run"
      headers := []
      body := none })

/-! ## Basic facts about the handlers -/

@[simp] theorem emit_trace (s : State) (e : Effect) : (emit s e).trace = s.trace ++ [e] := rfl

@[simp] theorem emit_jobs (s : State) (e : Effect) : (emit s e).jobs = s.jobs := rfl

@[simp] theorem emit_logs (s : State) (e : Effect) : (emit s e).logs = s.logs := rfl

@[simp] theorem emit_form (s : State) (e : Effect) : (emit s e).form = s.form := rfl

@[simp] theorem emit_pending (s : State) (e : Effect) : (emit s e).pending = s.pending := rfl

@[simp] theorem suspend_trace (s : State) (p : Pending) : (suspend s p).trace = s.trace := rfl

@[simp] theorem suspend_jobs (s : State) (p : Pending) : (suspend s p).jobs = s.jobs := rfl

@[simp] theorem suspend_logs (s : State) (p : Pending) : (suspend s p).logs = s.logs := rfl

@[simp] theorem suspend_form (s : State) (p : Pending) : (suspend s p).form = s.form := rfl

@[simp] theorem suspend_pending (s : State) (p : Pending) :
    (suspend s p).pending = s.pending ++ [p] := rfl

@[simp] theorem resume_trace (s : State) (p : Pending) : (resume s p).trace = s.trace := rfl

@[simp] theorem resume_jobs (s : State) (p : Pending) : (resume s p).jobs = s.jobs := rfl

@[simp] theorem resume_logs (s : State) (p : Pending) : (resume s p).logs = s.logs := rfl

@[simp] theorem resume_form (s : State) (p : Pending) : (resume s p).form = s.form := rfl

@[simp] theorem resume_pending (s : State) (p : Pending) :
    (resume s p).pending = s.pending.erase p := rfl

@[simp] theorem requestsOf_nil : requestsOf [] = [] := rfl

@[simp] theorem requestsOf_append (a b : List Effect) :
    requestsOf (a ++ b) = requestsOf a ++ requestsOf b := by
  simp [requestsOf, List.filterMap_append]

@[simp] theorem requestsOf_request (r : Request) (t : List Effect) :
    requestsOf (.request r :: t) = r :: requestsOf t := rfl

@[simp] theorem requestsOf_alert (m : String) (t : List Effect) :
    requestsOf (.alert m :: t) = requestsOf t := rfl

@[simp] theorem requestsOf_consoleError (l : String) (e : JsError) (t : List Effect) :
    requestsOf (.consoleError l e :: t) = requestsOf t := rfl

@[simp] theorem requestsOf_preventDefault (t : List Effect) :
    requestsOf (.preventDefault :: t) = requestsOf t := rfl

@[simp] theorem requestsOf_unhandledRejection (e : JsError) (t : List Effect) :
    requestsOf (.unhandledRejection e :: t) = requestsOf t := rfl

/-- The rendered row at a position is the rendering of the job there. -/
theorem render_rows_getElem? (s : State) (i : Nat) :
    (render s).rows[i]? = (s.jobs[i]?).map renderJob := by
  simp [render, renderJobs]

/-- A step only appends to the trace of effects. -/
theorem step_trace (s : State) (ev : Event) :
    (step s ev).trace = s.trace ++ issued s ev := by
  have key : ∀ es, (step s ev).trace = s.trace ++ es → (step s ev).trace = s.trace ++ issued s ev := by
    intro es h
    simp [issued, h]
  cases ev with
  | changeName v => exact key [] (by simp [step, onChangeName])
  | changeType v => exact key [] (by simp [step, onChangeType])
  | changeTime v => exact key [] (by simp [step, onChangeTime])
  | submitForm =>
    by_cases h : requiredFilled (render s).form = true
    · exact key [.preventDefault, .request (submitRequest s.form)]
        (by simp [step, h, handleSubmit])
    · exact key [] (by simp [step, h])
  | clickToggle row =>
    cases hj : s.jobs[row]? with
    | none => exact key [] (by simp [step, render_rows_getElem?, hj])
    | some job =>
      exact key [.request (toggleRequest job.id)]
        (by simp [step, render_rows_getElem?, hj, click, renderJob, toggleJob])
  | clickRunNow row =>
    cases hj : s.jobs[row]? with
    | none => exact key [] (by simp [step, render_rows_getElem?, hj])
    | some job =>
      exact key [.request (runRequest job.id)]
        (by simp [step, render_rows_getElem?, hj, click, renderJob, runJobNow])
  | idle ms => exact key [] (by simp [step])
  | jobsArrived data =>
    by_cases h : Pending.fetchJobs ∈ s.pending
    · exact key [] (by simp [step, h, fetchJobsResume])
    · exact key [] (by simp [step, h])
  | logsArrived data =>
    by_cases h : Pending.fetchLogs ∈ s.pending
    · exact key [] (by simp [step, h, fetchLogsResume])
    · exact key [] (by simp [step, h])
  | responded p res =>
    by_cases h : p ∈ s.pending
    · cases p with
      | fetchJobs => exact key [] (by simp [step, h])
      | fetchLogs => exact key [] (by simp [step, h])
      | handleSubmit =>
        exact key [.request getJobs] (by simp [step, h, handleSubmitResume, fetchJobs, getJobs])
      | toggleJob =>
        exact key [.request getJobs] (by simp [step, h, toggleJobResume, fetchJobs, getJobs])
      | runJobNow =>
        by_cases hok : res.ok = true
        · exact key [.alert "Job triggered successfully!", .request getJobs, .request getLogs]
            (by simp [step, h, runJobNowResume, runJobNowTry, hok, settle, fetchJobs,
              fetchLogs, getJobs, getLogs])
        · exact key [.consoleError "Error running job:"
              { message := orElse res.text "Failed to run job" },
              .alert "Failed to trigger job. See console for more."]
            (by simp [step, h, runJobNowResume, runJobNowTry, hok, settle, runJobNowCatch])
    · exact key [] (by simp [step, h])
  | rejected p err =>
    by_cases h : p ∈ s.pending
    · cases p with
      | runJobNow =>
        exact key [.consoleError "Error running job:" err,
            .alert "Failed to trigger job. See console for more."]
          (by simp [step, h, settle, runJobNowCatch])
      | fetchJobs => exact key [.unhandledRejection err] (by simp [step, h, settle])
      | fetchLogs => exact key [.unhandledRejection err] (by simp [step, h, settle])
      | handleSubmit => exact key [.unhandledRejection err] (by simp [step, h, settle])
      | toggleJob => exact key [.unhandledRejection err] (by simp [step, h, settle])
    · exact key [] (by simp [step, h])

/-- When a step appends `es`, these are the effects it issued. -/
theorem issued_eq (s : State) (ev : Event) (es : List Effect)
    (h : (step s ev).trace = s.trace ++ es) : issued s ev = es := by
  simp [issued, h]

/-- The requests a step sends, by event: a table read off the handlers. -/
def requestsFor (s : State) : Event → List Request
  | .submitForm => if requiredFilled (render s).form then [submitRequest s.form] else []
  | .clickToggle row =>
    match s.jobs[row]? with
    | some job => [toggleRequest job.id]
    | none => []
  | .clickRunNow row =>
    match s.jobs[row]? with
    | some job => [runRequest job.id]
    | none => []
  | .responded p res =>
    if p ∈ s.pending then
      match p with
      | .handleSubmit => [getJobs]
      | .toggleJob => [getJobs]
      | .runJobNow => if res.ok then [getJobs, getLogs] else []
      | _ => []
    else []
  | _ => []

/-- The requests a step sends are those of the table `requestsFor`. -/
theorem requestsOf_issued (s : State) (ev : Event) :
    requestsOf (issued s ev) = requestsFor s ev := by
  cases ev with
  | changeName v => rw [issued_eq s _ [] (by simp [step, onChangeName])]; rfl
  | changeType v => rw [issued_eq s _ [] (by simp [step, onChangeType])]; rfl
  | changeTime v => rw [issued_eq s _ [] (by simp [step, onChangeTime])]; rfl
  | submitForm =>
    by_cases h : requiredFilled (render s).form = true
    · rw [issued_eq s _ [.preventDefault, .request (submitRequest s.form)]
        (by simp [step, h, handleSubmit])]
      simp [requestsFor, h]
    · rw [issued_eq s _ [] (by simp [step, h])]
      simp [requestsFor, h]
  | clickToggle row =>
    cases hj : s.jobs[row]? with
    | none =>
      rw [issued_eq s _ [] (by simp [step, render_rows_getElem?, hj])]
      simp [requestsFor, hj]
    | some job =>
      rw [issued_eq s _ [.request (toggleRequest job.id)]
        (by simp [step, render_rows_getElem?, hj, click, renderJob, toggleJob])]
      simp [requestsFor, hj]
  | clickRunNow row =>
    cases hj : s.jobs[row]? with
    | none =>
      rw [issued_eq s _ [] (by simp [step, render_rows_getElem?, hj])]
      simp [requestsFor, hj]
    | some job =>
      rw [issued_eq s _ [.request (runRequest job.id)]
        (by simp [step, render_rows_getElem?, hj, click, renderJob, runJobNow])]
      simp [requestsFor, hj]
  | idle ms => rw [issued_eq s _ [] (by simp [step])]; rfl
  | jobsArrived data =>
    by_cases h : Pending.fetchJobs ∈ s.pending
    · rw [issued_eq s _ [] (by simp [step, h, fetchJobsResume])]; rfl
    · rw [issued_eq s _ [] (by simp [step, h])]; rfl
  | logsArrived data =>
    by_cases h : Pending.fetchLogs ∈ s.pending
    · rw [issued_eq s _ [] (by simp [step, h, fetchLogsResume])]; rfl
    · rw [issued_eq s _ [] (by simp [step, h])]; rfl
  | responded p res =>
    by_cases h : p ∈ s.pending
    · cases p with
      | fetchJobs => rw [issued_eq s _ [] (by simp [step, h])]; simp [requestsFor, h]
      | fetchLogs => rw [issued_eq s _ [] (by simp [step, h])]; simp [requestsFor, h]
      | handleSubmit =>
        rw [issued_eq s _ [.request getJobs]
          (by simp [step, h, handleSubmitResume, fetchJobs, getJobs])]
        simp [requestsFor, h]
      | toggleJob =>
        rw [issued_eq s _ [.request getJobs]
          (by simp [step, h, toggleJobResume, fetchJobs, getJobs])]
        simp [requestsFor, h]
      | runJobNow =>
        by_cases hok : res.ok = true
        · rw [issued_eq s _ [.alert "Job triggered successfully!", .request getJobs,
            .request getLogs]
            (by simp [step, h, runJobNowResume, runJobNowTry, hok, settle, fetchJobs,
              fetchLogs, getJobs, getLogs])]
          simp [requestsFor, h, hok]
        · rw [issued_eq s _ [.consoleError "Error running job:"
              { message := orElse res.text "Failed to run job" },
              .alert "Failed to trigger job. See console for more."]
            (by simp [step, h, runJobNowResume, runJobNowTry, hok, settle, runJobNowCatch])]
          simp [requestsFor, h, hok]
    · rw [issued_eq s _ [] (by simp [step, h])]
      simp [requestsFor, h]
  | rejected p err =>
    by_cases h : p ∈ s.pending
    · cases p with
      | runJobNow =>
        rw [issued_eq s _ [.consoleError "Error running job:" err,
            .alert "Failed to trigger job. See console for more."]
          (by simp [step, h, settle, runJobNowCatch])]
        rfl
      | fetchJobs => rw [issued_eq s _ [.unhandledRejection err] (by simp [step, h, settle])]; rfl
      | fetchLogs => rw [issued_eq s _ [.unhandledRejection err] (by simp [step, h, settle])]; rfl
      | handleSubmit =>
        rw [issued_eq s _ [.unhandledRejection err] (by simp [step, h, settle])]; rfl
      | toggleJob => rw [issued_eq s _ [.unhandledRejection err] (by simp [step, h, settle])]; rfl
    · rw [issued_eq s _ [] (by simp [step, h])]; rfl

/-- The requests sent over a run: those already sent, then those of each step. -/
theorem requestsOf_run_cons (s : State) (ev : Event) (evs : List Event) :
    requestsOf (run s (ev :: evs)).trace = requestsOf (run (step s ev) evs).trace := rfl

/-- The requests of one step extend those sent before. -/
theorem requestsOf_step (s : State) (ev : Event) :
    requestsOf (step s ev).trace = requestsOf s.trace ++ requestsFor s ev := by
  rw [step_trace, requestsOf_append, requestsOf_issued]

theorem isApiShape_getJobs : IsApiShape getJobs := Or.inl ⟨rfl, rfl⟩

theorem isApiShape_getLogs : IsApiShape getLogs := Or.inr (Or.inl ⟨rfl, rfl⟩)

theorem isApiShape_submit (form : JsObject) : IsApiShape (submitRequest form) :=
  Or.inr (Or.inr (Or.inl ⟨rfl, rfl⟩))

theorem isApiShape_toggle (id : JobId) : IsApiShape (toggleRequest id) :=
  Or.inr (Or.inr (Or.inr (Or.inl ⟨rfl, id, rfl⟩)))

theorem isApiShape_run (id : JobId) : IsApiShape (runRequest id) :=
  Or.inr (Or.inr (Or.inr (Or.inr ⟨rfl, id, rfl⟩)))

/-- Every request of the table has one of the five shapes. -/
theorem requestsFor_shape (s : State) (ev : Event) :
    ∀ r ∈ requestsFor s ev, IsApiShape r := by
  intro r hr
  cases ev with
  | submitForm =>
    simp only [requestsFor] at hr
    split_ifs at hr
    · simp at hr; subst hr; exact isApiShape_submit _
    · simp at hr
  | clickToggle row =>
    simp only [requestsFor] at hr
    cases hj : s.jobs[row]? with
    | none => simp [hj] at hr
    | some job => simp [hj] at hr; subst hr; exact isApiShape_toggle _
  | clickRunNow row =>
    simp only [requestsFor] at hr
    cases hj : s.jobs[row]? with
    | none => simp [hj] at hr
    | some job => simp [hj] at hr; subst hr; exact isApiShape_run _
  | responded p res =>
    by_cases h : p ∈ s.pending
    · cases p with
      | fetchJobs => simp [requestsFor, h] at hr
      | fetchLogs => simp [requestsFor, h] at hr
      | handleSubmit => simp [requestsFor, h] at hr; subst hr; exact isApiShape_getJobs
      | toggleJob => simp [requestsFor, h] at hr; subst hr; exact isApiShape_getJobs
      | runJobNow =>
        by_cases hok : res.ok = true
        · simp [requestsFor, h, hok] at hr
          rcases hr with hr | hr
          · subst hr; exact isApiShape_getJobs
          · subst hr; exact isApiShape_getLogs
        · simp [requestsFor, h, hok] at hr
    · simp [requestsFor, h] at hr
  | changeName v => simp [requestsFor] at hr
  | changeType v => simp [requestsFor] at hr
  | changeTime v => simp [requestsFor] at hr
  | idle ms => simp [requestsFor] at hr
  | jobsArrived data => simp [requestsFor] at hr
  | logsArrived data => simp [requestsFor] at hr
  | rejected p err => simp [requestsFor] at hr

/-- Along a run, every request sent has one of the five shapes when those
sent before the run have. -/
theorem run_requests_shape (evs : List Event) :
    ∀ s : State, (∀ r ∈ requestsOf s.trace, IsApiShape r) →
      ∀ r ∈ requestsOf (run s evs).trace, IsApiShape r := by
  induction evs with
  | nil => intro s h; exact h
  | cons ev evs ih =>
    intro s h
    apply ih (step s ev)
    intro r hr
    rw [requestsOf_step, List.mem_append] at hr
    rcases hr with hr | hr
    · exact h r hr
    · exact requestsFor_shape s ev r hr

/-- What a step does to `jobs`: nothing, unless it is the arrival of a
`GET /jobs` body, which then is the new value. -/
theorem step_jobs (s : State) (ev : Event) :
    (step s ev).jobs = s.jobs ∨ ev = .jobsArrived (step s ev).jobs := by
  cases ev with
  | changeName v => left; rfl
  | changeType v => left; rfl
  | changeTime v => left; rfl
  | submitForm =>
    left
    by_cases h : requiredFilled (render s).form = true <;> simp [step, h, handleSubmit]
  | clickToggle row =>
    left
    cases hj : s.jobs[row]? <;>
      simp [step, render_rows_getElem?, hj, click, renderJob, toggleJob]
  | clickRunNow row =>
    left
    cases hj : s.jobs[row]? <;>
      simp [step, render_rows_getElem?, hj, click, renderJob, runJobNow]
  | idle ms => left; rfl
  | jobsArrived data =>
    by_cases h : Pending.fetchJobs ∈ s.pending
    · right; simp [step, h, fetchJobsResume]
    · left; simp [step, h]
  | logsArrived data =>
    left
    by_cases h : Pending.fetchLogs ∈ s.pending <;> simp [step, h, fetchLogsResume]
  | responded p res =>
    left
    by_cases h : p ∈ s.pending
    · cases p with
      | fetchJobs => simp [step, h]
      | fetchLogs => simp [step, h]
      | handleSubmit => simp [step, h, handleSubmitResume, fetchJobs]
      | toggleJob => simp [step, h, toggleJobResume, fetchJobs]
      | runJobNow =>
        by_cases hok : res.ok = true <;>
          simp [step, h, runJobNowResume, runJobNowTry, hok, settle, fetchJobs, fetchLogs,
            runJobNowCatch]
    · simp [step, h]
  | rejected p err =>
    left
    by_cases h : p ∈ s.pending
    · cases p <;> simp [step, h, settle, runJobNowCatch]
    · simp [step, h]

/-- What a step does to `logs`: nothing, unless it is the arrival of a
`GET /logs` body, which then is the new value. -/
theorem step_logs (s : State) (ev : Event) :
    (step s ev).logs = s.logs ∨ ev = .logsArrived (step s ev).logs := by
  cases ev with
  | changeName v => left; rfl
  | changeType v => left; rfl
  | changeTime v => left; rfl
  | submitForm =>
    left
    by_cases h : requiredFilled (render s).form = true <;> simp [step, h, handleSubmit]
  | clickToggle row =>
    left
    cases hj : s.jobs[row]? <;>
      simp [step, render_rows_getElem?, hj, click, renderJob, toggleJob]
  | clickRunNow row =>
    left
    cases hj : s.jobs[row]? <;>
      simp [step, render_rows_getElem?, hj, click, renderJob, runJobNow]
  | idle ms => left; rfl
  | jobsArrived data =>
    left
    by_cases h : Pending.fetchJobs ∈ s.pending <;> simp [step, h, fetchJobsResume]
  | logsArrived data =>
    by_cases h : Pending.fetchLogs ∈ s.pending
    · right; simp [step, h, fetchLogsResume]
    · left; simp [step, h]
  | responded p res =>
    left
    by_cases h : p ∈ s.pending
    · cases p with
      | fetchJobs => simp [step, h]
      | fetchLogs => simp [step, h]
      | handleSubmit => simp [step, h, handleSubmitResume, fetchJobs]
      | toggleJob => simp [step, h, toggleJobResume, fetchJobs]
      | runJobNow =>
        by_cases hok : res.ok = true <;>
          simp [step, h, runJobNowResume, runJobNowTry, hok, settle, fetchJobs, fetchLogs,
            runJobNowCatch]
    · simp [step, h]
  | rejected p err =>
    left
    by_cases h : p ∈ s.pending
    · cases p <;> simp [step, h, settle, runJobNowCatch]
    · simp [step, h]

/-- The shape of the form object: the three keys in their initial order. -/
def FormShape (form : JsObject) : Prop :=
  ∃ n t tm : String, form = [("name", n), ("type", t), ("time", tm)]

theorem formShape_emptyForm : FormShape emptyForm := ⟨"", "hourly", "", rfl⟩

/-- A step keeps the form an object with the three keys. -/
theorem step_formShape (s : State) (ev : Event) (hs : FormShape s.form) :
    FormShape (step s ev).form := by
  obtain ⟨n, t, tm, hf⟩ := hs
  cases ev with
  | changeName v => exact ⟨v, t, tm, by simp [step, onChangeName, spreadWith, setProp, hf]⟩
  | changeType v => exact ⟨n, v, tm, by simp [step, onChangeType, spreadWith, setProp, hf]⟩
  | changeTime v => exact ⟨n, t, v, by simp [step, onChangeTime, spreadWith, setProp, hf]⟩
  | submitForm =>
    refine ⟨n, t, tm, ?_⟩
    by_cases h : requiredFilled (render s).form = true <;> simp [step, h, handleSubmit, hf]
  | clickToggle row =>
    refine ⟨n, t, tm, ?_⟩
    cases hj : s.jobs[row]? <;>
      simp [step, render_rows_getElem?, hj, click, renderJob, toggleJob, hf]
  | clickRunNow row =>
    refine ⟨n, t, tm, ?_⟩
    cases hj : s.jobs[row]? <;>
      simp [step, render_rows_getElem?, hj, click, renderJob, runJobNow, hf]
  | idle ms => exact ⟨n, t, tm, hf⟩
  | jobsArrived data =>
    refine ⟨n, t, tm, ?_⟩
    by_cases h : Pending.fetchJobs ∈ s.pending <;> simp [step, h, fetchJobsResume, hf]
  | logsArrived data =>
    refine ⟨n, t, tm, ?_⟩
    by_cases h : Pending.fetchLogs ∈ s.pending <;> simp [step, h, fetchLogsResume, hf]
  | responded p res =>
    by_cases h : p ∈ s.pending
    · cases p with
      | fetchJobs => exact ⟨n, t, tm, by simp [step, h, hf]⟩
      | fetchLogs => exact ⟨n, t, tm, by simp [step, h, hf]⟩
      | handleSubmit =>
        exact ⟨"", "hourly", "", by simp [step, h, handleSubmitResume, fetchJobs, emptyForm]⟩
      | toggleJob => exact ⟨n, t, tm, by simp [step, h, toggleJobResume, fetchJobs, hf]⟩
      | runJobNow =>
        refine ⟨n, t, tm, ?_⟩
        by_cases hok : res.ok = true <;>
          simp [step, h, runJobNowResume, runJobNowTry, hok, settle, fetchJobs, fetchLogs,
            runJobNowCatch, hf]
    · exact ⟨n, t, tm, by simp [step, h, hf]⟩
  | rejected p err =>
    refine ⟨n, t, tm, ?_⟩
    by_cases h : p ∈ s.pending
    · cases p <;> simp [step, h, settle, runJobNowCatch, hf]
    · simp [step, h, hf]

/-- Along a run the form stays an object with the three keys. -/
theorem run_formShape (evs : List Event) :
    ∀ s : State, FormShape s.form → FormShape (run s evs).form := by
  induction evs with
  | nil => intro s h; exact h
  | cons ev evs ih => intro s h; exact ih (step s ev) (step_formShape s ev h)

/-- Along a run `jobs` stays what it was or is the body of one of the arrivals
of the run. -/
theorem run_jobs (evs : List Event) :
    ∀ s : State, (run s evs).jobs = s.jobs ∨ Event.jobsArrived (run s evs).jobs ∈ evs := by
  induction evs with
  | nil => intro s; left; rfl
  | cons ev evs ih =>
    intro s
    rcases ih (step s ev) with h | h
    · rcases step_jobs s ev with h2 | h2
      · left
        show (run (step s ev) evs).jobs = s.jobs
        rw [h, h2]
      · right
        show Event.jobsArrived (run (step s ev) evs).jobs ∈ ev :: evs
        rw [h, ← h2]
        exact List.mem_cons_self _ _
    · right
      exact List.mem_cons_of_mem _ h

/-- Along a run `logs` stays what it was or is the body of one of the arrivals
of the run. -/
theorem run_logs (evs : List Event) :
    ∀ s : State, (run s evs).logs = s.logs ∨ Event.logsArrived (run s evs).logs ∈ evs := by
  induction evs with
  | nil => intro s; left; rfl
  | cons ev evs ih =>
    intro s
    rcases ih (step s ev) with h | h
    · rcases step_logs s ev with h2 | h2
      · left
        show (run (step s ev) evs).logs = s.logs
        rw [h, h2]
      · right
        show Event.logsArrived (run (step s ev) evs).logs ∈ ev :: evs
        rw [h, ← h2]
        exact List.mem_cons_self _ _
    · right
      exact List.mem_cons_of_mem _ h

/-- A state whose suspended functions are only the two fetches. -/
def OnlyFetches (s : State) : Prop :=
  ∀ p ∈ s.pending, p = Pending.fetchJobs ∨ p = Pending.fetchLogs

/-- Without user action a step sends nothing and suspends nothing new. -/
theorem quiet_step (s : State) (ev : Event) (hq : ev.isUserAction = false)
    (hs : OnlyFetches s) :
    OnlyFetches (step s ev) ∧ requestsOf (step s ev).trace = requestsOf s.trace := by
  have herase : ∀ q : Pending, ∀ p ∈ s.pending.erase q,
      p = Pending.fetchJobs ∨ p = Pending.fetchLogs :=
    fun q p hp => hs p (List.mem_of_mem_erase hp)
  cases ev with
  | changeName v => simp [Event.isUserAction] at hq
  | changeType v => simp [Event.isUserAction] at hq
  | changeTime v => simp [Event.isUserAction] at hq
  | submitForm => simp [Event.isUserAction] at hq
  | clickToggle row => simp [Event.isUserAction] at hq
  | clickRunNow row => simp [Event.isUserAction] at hq
  | idle ms => exact ⟨hs, rfl⟩
  | jobsArrived data =>
    by_cases h : Pending.fetchJobs ∈ s.pending
    · refine ⟨?_, by simp [step, h, fetchJobsResume]⟩
      intro p hp
      simp [step, h, fetchJobsResume] at hp
      exact herase _ p hp
    · simp [step, h]; exact hs
  | logsArrived data =>
    by_cases h : Pending.fetchLogs ∈ s.pending
    · refine ⟨?_, by simp [step, h, fetchLogsResume]⟩
      intro p hp
      simp [step, h, fetchLogsResume] at hp
      exact herase _ p hp
    · simp [step, h]; exact hs
  | responded p res =>
    by_cases h : p ∈ s.pending
    · rcases hs p h with hp | hp <;> subst hp <;> simp [step, h] <;> exact hs
    · simp [step, h]; exact hs
  | rejected p err =>
    by_cases h : p ∈ s.pending
    · rcases hs p h with hp | hp <;> subst hp
      · refine ⟨?_, by simp [step, h, settle]⟩
        intro p hp
        simp [step, h, settle] at hp
        exact herase _ p hp
      · refine ⟨?_, by simp [step, h, settle]⟩
        intro p hp
        simp [step, h, settle] at hp
        exact herase _ p hp
    · simp [step, h]; exact hs

/-- Without user action a run sends nothing. -/
theorem quiet_run (evs : List Event) :
    ∀ s : State, (∀ ev ∈ evs, ev.isUserAction = false) → OnlyFetches s →
      requestsOf (run s evs).trace = requestsOf s.trace := by
  induction evs with
  | nil => intro s _ _; rfl
  | cons ev evs ih =>
    intro s hq hs
    have h1 := quiet_step s ev (hq ev (List.mem_cons_self _ _)) hs
    have h2 := ih (step s ev) (fun e he => hq e (List.mem_cons_of_mem _ he)) h1.1
    show requestsOf (run (step s ev) evs).trace = requestsOf s.trace
    rw [h2, h1.2]

theorem received_mono (pre more : List Event) (job : Job) (h : Received pre job) :
    Received (pre ++ more) job := by
  obtain ⟨data, hd, hj⟩ := h
  exact ⟨data, List.mem_append_left _ hd, hj⟩

theorem allowed_mono (pre more : List Event) (r : Request) (h : Allowed pre r) :
    Allowed (pre ++ more) r := by
  rcases h with h | h | h | ⟨job, hj, h⟩ | ⟨job, hj, h⟩
  · exact Or.inl h
  · exact Or.inr (Or.inl h)
  · exact Or.inr (Or.inr (Or.inl h))
  · exact Or.inr (Or.inr (Or.inr (Or.inl ⟨job, received_mono pre more job hj, h⟩)))
  · exact Or.inr (Or.inr (Or.inr (Or.inr ⟨job, received_mono pre more job hj, h⟩)))

/-- The requests of one step are allowed when the form has the three fields and
every job of the state was sent by the server. -/
theorem requestsFor_allowed (pre : List Event) (s : State) (ev : Event)
    (hform : FormShape s.form) (hjobs : ∀ job ∈ s.jobs, Received pre job) :
    ∀ r ∈ requestsFor s ev, Allowed pre r := by
  intro r hr
  cases ev with
  | submitForm =>
    obtain ⟨n, t, tm, hf⟩ := hform
    by_cases h : requiredFilled (render s).form = true
    · simp [requestsFor, h] at hr
      subst hr
      exact Or.inr (Or.inr (Or.inl ⟨n, t, tm, by simp [submitRequest, hf]⟩))
    · simp [requestsFor, h] at hr
  | clickToggle row =>
    cases hj : s.jobs[row]? with
    | none => simp [requestsFor, hj] at hr
    | some job =>
      simp [requestsFor, hj] at hr
      subst hr
      exact Or.inr (Or.inr (Or.inr (Or.inl
        ⟨job, hjobs job (List.getElem?_mem hj), rfl⟩)))
  | clickRunNow row =>
    cases hj : s.jobs[row]? with
    | none => simp [requestsFor, hj] at hr
    | some job =>
      simp [requestsFor, hj] at hr
      subst hr
      exact Or.inr (Or.inr (Or.inr (Or.inr
        ⟨job, hjobs job (List.getElem?_mem hj), rfl⟩)))
  | responded p res =>
    by_cases h : p ∈ s.pending
    · cases p with
      | fetchJobs => simp [requestsFor, h] at hr
      | fetchLogs => simp [requestsFor, h] at hr
      | handleSubmit => simp [requestsFor, h] at hr; subst hr; exact Or.inl rfl
      | toggleJob => simp [requestsFor, h] at hr; subst hr; exact Or.inl rfl
      | runJobNow =>
        by_cases hok : res.ok = true
        · simp [requestsFor, h, hok] at hr
          rcases hr with hr | hr
          · subst hr; exact Or.inl rfl
          · subst hr; exact Or.inr (Or.inl rfl)
        · simp [requestsFor, h, hok] at hr
    · simp [requestsFor, h] at hr
  | changeName v => simp [requestsFor] at hr
  | changeType v => simp [requestsFor] at hr
  | changeTime v => simp [requestsFor] at hr
  | idle ms => simp [requestsFor] at hr
  | jobsArrived data => simp [requestsFor] at hr
  | logsArrived data => simp [requestsFor] at hr
  | rejected p err => simp [requestsFor] at hr

/-- Along a run every request sent is allowed, and every job of the state was
sent by the server, when this holds before the run. -/
theorem run_allowed (evs : List Event) :
    ∀ (pre : List Event) (s : State), FormShape s.form →
      (∀ job ∈ s.jobs, Received pre job) →
      (∀ r ∈ requestsOf s.trace, Allowed pre r) →
      ∀ r ∈ requestsOf (run s evs).trace, Allowed (pre ++ evs) r := by
  induction evs with
  | nil =>
    intro pre s _ _ h r hr
    rw [List.append_nil]
    exact h r hr
  | cons ev evs ih =>
    intro pre s hform hjobs hreq r hr
    have hassoc : pre ++ ev :: evs = (pre ++ [ev]) ++ evs := by simp
    rw [hassoc]
    apply ih (pre ++ [ev]) (step s ev) (step_formShape s ev hform) ?_ ?_ r hr
    · intro job hjob
      rcases step_jobs s ev with h | h
      · rw [h] at hjob
        exact received_mono pre [ev] job (hjobs job hjob)
      · exact ⟨(step s ev).jobs, by rw [← h]; simp, hjob⟩
    · intro q hq
      rw [requestsOf_step, List.mem_append] at hq
      rcases hq with hq | hq
      · exact allowed_mono pre [ev] q (hreq q hq)
      · exact allowed_mono pre [ev] q (requestsFor_allowed pre s ev hform hjobs q hq)

/-- Where a suspended function comes from: it was suspended before the step,
or the step is the user action that calls it, or it is a fetch started by the
response to a suspended function. -/
theorem step_pending_origin (s : State) (ev : Event) (p : Pending)
    (hp : p ∈ (step s ev).pending) :
    p ∈ s.pending ∨ (ev = .submitForm ∧ p = .handleSubmit) ∨
      (∃ row, ev = .clickToggle row ∧ p = .toggleJob) ∨
      (∃ row, ev = .clickRunNow row ∧ p = .runJobNow) ∨
      (∃ q res, ev = .responded q res ∧ q ∈ s.pending ∧
        (p = .fetchJobs ∨ p = .fetchLogs)) := by
  have herase : ∀ q : Pending, p ∈ s.pending.erase q → p ∈ s.pending :=
    fun q h => List.mem_of_mem_erase h
  cases ev with
  | changeName v => left; exact hp
  | changeType v => left; exact hp
  | changeTime v => left; exact hp
  | submitForm =>
    by_cases h : requiredFilled (render s).form = true
    · simp [step, h, handleSubmit] at hp
      rcases hp with hp | hp
      · left; exact hp
      · right; left; exact ⟨rfl, hp⟩
    · simp [step, h] at hp
      left; exact hp
  | clickToggle row =>
    cases hj : s.jobs[row]? with
    | none =>
      simp [step, render_rows_getElem?, hj] at hp
      left; exact hp
    | some job =>
      simp [step, render_rows_getElem?, hj, click, renderJob, toggleJob] at hp
      rcases hp with hp | hp
      · left; exact hp
      · right; right; left; exact ⟨row, rfl, hp⟩
  | clickRunNow row =>
    cases hj : s.jobs[row]? with
    | none =>
      simp [step, render_rows_getElem?, hj] at hp
      left; exact hp
    | some job =>
      simp [step, render_rows_getElem?, hj, click, renderJob, runJobNow] at hp
      rcases hp with hp | hp
      · left; exact hp
      · right; right; right; left; exact ⟨row, rfl, hp⟩
  | idle ms => left; exact hp
  | jobsArrived data =>
    left
    by_cases h : Pending.fetchJobs ∈ s.pending
    · simp [step, h, fetchJobsResume] at hp
      exact herase _ hp
    · simp [step, h] at hp
      exact hp
  | logsArrived data =>
    left
    by_cases h : Pending.fetchLogs ∈ s.pending
    · simp [step, h, fetchLogsResume] at hp
      exact herase _ hp
    · simp [step, h] at hp
      exact hp
  | responded q res =>
    by_cases h : q ∈ s.pending
    · cases q with
      | fetchJobs => simp [step, h] at hp; left; exact hp
      | fetchLogs => simp [step, h] at hp; left; exact hp
      | handleSubmit =>
        simp [step, h, handleSubmitResume, fetchJobs] at hp
        rcases hp with hp | hp
        · left; exact herase _ hp
        · right; right; right; right; exact ⟨_, res, rfl, h, Or.inl hp⟩
      | toggleJob =>
        simp [step, h, toggleJobResume, fetchJobs] at hp
        rcases hp with hp | hp
        · left; exact herase _ hp
        · right; right; right; right; exact ⟨_, res, rfl, h, Or.inl hp⟩
      | runJobNow =>
        cases hok : res.ok
        · simp [step, h, runJobNowResume, runJobNowTry, hok, settle, runJobNowCatch] at hp
          left; exact herase _ hp
        · simp [step, h, runJobNowResume, runJobNowTry, hok, settle, fetchJobs,
            fetchLogs] at hp
          rcases hp with hp | hp | hp
          · left; exact herase _ hp
          · right; right; right; right; exact ⟨_, res, rfl, h, Or.inl hp⟩
          · right; right; right; right; exact ⟨_, res, rfl, h, Or.inr hp⟩
    · simp [step, h] at hp
      left; exact hp
  | rejected q err =>
    left
    by_cases h : q ∈ s.pending
    · cases q <;> simp [step, h, settle, runJobNowCatch] at hp <;> exact herase _ hp
    · simp [step, h] at hp
      exact hp

/-! ## The requests of the client -/

/-- C1: every request sent along any run of the mounted component has one of
the five shapes `GET /jobs`, `GET /logs`, `POST /jobs`, `POST /jobs/:id/toggle`
and `POST /jobs/:id/run` on `http://localhost:8000`, and the id in the path of
a toggle or run request is the id of a job of a `GET /jobs` response of the
run; each shape is sent on some run; and the Toggle and Run Now buttons of the
row of a job call `toggleJob` and `runJobNow` with that job's id, which sends
the request with that id in the path. -/
theorem requests_are_api_shapes :
    (∀ evs : List Event, ∀ r ∈ requestsOf (run mounted evs).trace,
      IsApiShape r ∧ Allowed evs r) ∧
    (∀ (s : State) (row : Nat) (job : Job), s.jobs[row]? = some job →
      ((render s).rows[row]?).map (fun r => (r.toggle.onClick, r.runNow.onClick)) =
        some (Action.toggleJob job.id, Action.runJobNow job.id) ∧
      issued s (.clickToggle row) = [.request
        { method := .POST
          url := "http://localhost:8000/jobs/" ++ job.id.toText ++ "/toggle"
          headers := []
          body := none }] ∧
      issued s (.clickRunNow row) = [.request
        { method := .POST
          url := "http://localhost:8000/jobs/" ++ job.id.toText ++ "/run"
          headers := []
          body := none }]) ∧
    (requestsOf (run mounted
        [.jobsArrived [⟨⟨"1e+21"⟩, "backup", "hourly", "15", true, none, none⟩,
            ⟨⟨"8"⟩, "report", "daily", "14:30", false, none, none⟩],
          .changeName "sync", .changeTime "30", .submitForm, .clickToggle 0,
          .clickRunNow 1]).trace).map (fun r => (r.method, r.url)) =
      [(.GET, "http://localhost:8000/jobs"), (.GET, "http://localhost:8000/logs"),
        (.POST, "http://localhost:8000/jobs"),
        (.POST, "http://localhost:8000/jobs/1e+21/toggle"),
        (.POST, "http://localhost:8000/jobs/8/run")] := by
  refine ⟨?_, ?_, by decide⟩
  · intro evs r hr
    have hm : requestsOf mounted.trace = [getJobs, getLogs] := by decide
    constructor
    · apply run_requests_shape evs mounted _ r hr
      intro q hq
      rw [hm] at hq
      simp at hq
      rcases hq with hq | hq
      · subst hq; exact isApiShape_getJobs
      · subst hq; exact isApiShape_getLogs
    · have h := run_allowed evs [] mounted formShape_emptyForm
        (by intro job hjob; simp [mounted, useEffectMount, fetchLogs, fetchJobs, initial] at hjob)
        (by
          intro q hq
          rw [hm] at hq
          simp at hq
          rcases hq with hq | hq
          · subst hq; exact Or.inl rfl
          · subst hq; exact Or.inr (Or.inl rfl))
        r hr
      simpa using h
  · intro s row job hj
    refine ⟨?_, ?_, ?_⟩
    · simp [render_rows_getElem?, hj, renderJob]
    · exact issued_eq s _ _
        (by simp [step, render_rows_getElem?, hj, click, renderJob, toggleJob, toggleRequest])
    · exact issued_eq s _ _
        (by simp [step, render_rows_getElem?, hj, click, renderJob, runJobNow, runRequest])

/-- C2: in every state reached from the mounted component the form is an
object with exactly the fields `name`, `type` and `time`; `handleSubmit` sends
`POST /jobs` with the JSON text of that object, carrying the three current
values, as body; and each `onChange` handler replaces its own field and keeps
the other two. -/
theorem handleSubmit_sends_form (evs : List Event) :
    ∃ n t tm : String,
      (run mounted evs).form = [("name", n), ("type", t), ("time", tm)] ∧
      ((render (run mounted evs)).form.name = some n ∧
        (render (run mounted evs)).form.type = some t ∧
        (render (run mounted evs)).form.time = some tm) ∧
      requestsOf ((handleSubmit (run mounted evs)).trace.drop (run mounted evs).trace.length) =
        [{ method := .POST
           url := "http://localhost:8000/jobs"
           headers := [("Content-Type", "application/json")]
           body := some (JSON_stringify [("name", n), ("type", t), ("time", tm)]) }] ∧
      (∀ v, (onChangeName (run mounted evs) v).form = [("name", v), ("type", t), ("time", tm)]) ∧
      (∀ v, (onChangeType (run mounted evs) v).form = [("name", n), ("type", v), ("time", tm)]) ∧
      (∀ v, (onChangeTime (run mounted evs) v).form = [("name", n), ("type", t), ("time", v)]) := by
  obtain ⟨n, t, tm, hf⟩ := run_formShape evs mounted formShape_emptyForm
  refine ⟨n, t, tm, hf, ?_, ?_, ?_, ?_, ?_⟩
  · simp [render, hf, getProp]
  · simp [handleSubmit, submitRequest, hf]
  · intro v; simp [onChangeName, spreadWith, setProp, hf]
  · intro v; simp [onChangeType, spreadWith, setProp, hf]
  · intro v; simp [onChangeTime, spreadWith, setProp, hf]

/-- The JSON text `handleSubmit` sends for a filled form, quotes inside a value
escaped. -/
theorem handleSubmit_body_example :
    (submitRequest [("name", "a\"b"), ("type", "daily"), ("time", "14:30")]).body =
      some "\x7b\"name\":\"a\\\"b\",\"type\":\"daily\",\"time\":\"14:30\"\x7d" := by
  decide

/-- C3: once the `POST /jobs/:id/run` of `runJobNow` resolved, the function
alerts success and re-fetches jobs and logs exactly when the response is ok
(status 200 to 299); on any other response the `try` block throws an error
whose message is the response text, or `Failed to run job` when that text is
empty, the `catch` block logs it and alerts failure, and nothing is fetched; in
both cases, and when the request itself fails, `runJobNow` fulfils, so no
error escapes it. -/
theorem runJobNow_reports (s : State) (id : JobId) (res : Response) :
    (runJobNow s id).trace = s.trace ++ [.request
      { method := .POST
        url := "http://localhost:8000/jobs/" ++ id.toText ++ "/run"
        headers := []
        body := none }] ∧
    (res.ok = true ↔ 200 ≤ res.status ∧ res.status ≤ 299) ∧
    (res.ok = true →
      (runJobNowResume s res).2.trace = s.trace ++
        [.alert "Job triggered successfully!", .request getJobs, .request getLogs]) ∧
    (res.ok = false →
      (runJobNowTry s res) =
        (.error { message := if res.text = "" then "Failed to run job" else res.text }, s) ∧
      (runJobNowResume s res).2.trace = s.trace ++
        [.consoleError "Error running job:"
            { message := if res.text = "" then "Failed to run job" else res.text },
          .alert "Failed to trigger job. See console for more."] ∧
      (runJobNowResume s res).2.pending = s.pending) ∧
    (alertsOf ((runJobNowResume s res).2.trace.drop s.trace.length) =
        ["Job triggered successfully!"] ↔ res.ok = true) ∧
    (requestsOf ((runJobNowResume s res).2.trace.drop s.trace.length) = [getJobs, getLogs] ↔
        res.ok = true) ∧
    (res.ok = false →
      alertsOf ((runJobNowResume s res).2.trace.drop s.trace.length) =
        ["Failed to trigger job. See console for more."] ∧
      requestsOf ((runJobNowResume s res).2.trace.drop s.trace.length) = []) ∧
    (runJobNowResume s res).1 = .ok () ∧
    (∀ err, (runJobNowCatch s err).1 = .ok ()) ∧
    (∀ e, Effect.unhandledRejection e ∉ issued s (.responded .runJobNow res)) ∧
    (∀ e err, Effect.unhandledRejection e ∉ issued s (.rejected .runJobNow err)) := by
  have hmsg : orElse res.text "Failed to run job" =
      (if res.text = "" then "Failed to run job" else res.text) := by
    by_cases ht : res.text = "" <;> simp [orElse, truthyString, ht]
  refine ⟨?_, ?_, ?_, ?_, ?_, ?_, ?_, ?_, ?_, ?_, ?_⟩
  · simp [runJobNow, runRequest]
  · simp [Response.ok]
  · intro hok
    simp [runJobNowResume, runJobNowTry, hok, fetchJobs, fetchLogs, getJobs, getLogs]
  · intro hok
    simp [runJobNowResume, runJobNowTry, hok, runJobNowCatch, hmsg]
  · cases hok : res.ok <;>
      simp [runJobNowResume, runJobNowTry, hok, runJobNowCatch, fetchJobs, fetchLogs, alertsOf]
  · cases hok : res.ok <;>
      simp [runJobNowResume, runJobNowTry, hok, runJobNowCatch, fetchJobs, fetchLogs, getJobs,
        getLogs]
  · intro hok
    simp [runJobNowResume, runJobNowTry, hok, runJobNowCatch, alertsOf]
  · cases hok : res.ok <;> simp [runJobNowResume, runJobNowTry, hok, runJobNowCatch]
  · intro err; rfl
  · intro e
    by_cases h : Pending.runJobNow ∈ s.pending
    · cases hok : res.ok
      · rw [issued_eq s _ [.consoleError "Error running job:"
              { message := orElse res.text "Failed to run job" },
              .alert "Failed to trigger job. See console for more."]
            (by simp [step, h, runJobNowResume, runJobNowTry, hok, settle, runJobNowCatch])]
        simp
      · rw [issued_eq s _ [.alert "Job triggered successfully!", .request getJobs,
            .request getLogs]
            (by simp [step, h, runJobNowResume, runJobNowTry, hok, settle, fetchJobs,
              fetchLogs, getJobs, getLogs])]
        simp
    · rw [issued_eq s _ [] (by simp [step, h])]
      simp
  · intro e err
    by_cases h : Pending.runJobNow ∈ s.pending
    · rw [issued_eq s _ [.consoleError "Error running job:" err,
            .alert "Failed to trigger job. See console for more."]
          (by simp [step, h, settle, runJobNowCatch])]
      simp
    · rw [issued_eq s _ [] (by simp [step, h])]
      simp

/-- C4, as the code has it: the component registers no timer and does not
poll. The mount effect sends `GET /jobs` and `GET /logs` once. After that a
step sends a `GET` only when the response to a suspended `handleSubmit` or
`toggleJob` is delivered (`GET /jobs`) or an ok response to a suspended
`runJobNow` (`GET /jobs` and `GET /logs`); every other event, an input change,
a click, time passing, the arrival of a body, a response that is not ok to
`runJobNow`, a failed request, sends no `GET`. Those three functions get
suspended only by the submit of the form and by the click of a row button. So
a run without user action sends nothing beyond the two requests of the mount. -/
theorem refetch_only_after_user_action :
    requestsOf mounted.trace = [getJobs, getLogs] ∧
    (∀ evs : List Event, (∀ ev ∈ evs, ev.isUserAction = false) →
      requestsOf (run mounted evs).trace = [getJobs, getLogs]) ∧
    (∀ (s : State) (p : Pending) (res : Response),
      requestsOf (issued s (.responded p res)) =
        if p ∈ s.pending then
          match p with
          | .handleSubmit => [getJobs]
          | .toggleJob => [getJobs]
          | .runJobNow => if res.ok then [getJobs, getLogs] else []
          | .fetchJobs => []
          | .fetchLogs => []
        else []) ∧
    (∀ (s : State) (ev : Event), (∀ p res, ev ≠ .responded p res) →
      ∀ r ∈ requestsOf (issued s ev), r.method = .POST) ∧
    (∀ (s : State) (ev : Event), ev.isUserAction = false →
      (∀ p res, ev ≠ .responded p res) → requestsOf (issued s ev) = []) ∧
    (∀ (s : State) (ev : Event) (p : Pending), p ∈ (step s ev).pending → p ∉ s.pending →
      (p = .handleSubmit ∧ ev = .submitForm) ∨
      (p = .toggleJob ∧ ∃ row, ev = .clickToggle row) ∨
      (p = .runJobNow ∧ ∃ row, ev = .clickRunNow row) ∨
      ((p = .fetchJobs ∨ p = .fetchLogs) ∧ ∃ q res, ev = .responded q res ∧ q ∈ s.pending)) := by
  refine ⟨by decide, ?_, ?_, ?_, ?_, ?_⟩
  · intro evs hquiet
    have hm : OnlyFetches mounted := by
      intro p hp
      have : mounted.pending = [.fetchJobs, .fetchLogs] := by decide
      rw [this] at hp
      simpa using hp
    rw [quiet_run evs mounted hquiet hm]
    decide
  · intro s p res
    rw [requestsOf_issued]
    by_cases h : p ∈ s.pending
    · cases p <;> simp [requestsFor, h]
    · simp [requestsFor, h]
  · intro s ev hev r hr
    rw [requestsOf_issued] at hr
    cases ev with
    | submitForm =>
      by_cases h : requiredFilled (render s).form = true
      · simp [requestsFor, h] at hr; subst hr; rfl
      · simp [requestsFor, h] at hr
    | clickToggle row =>
      cases hj : s.jobs[row]? with
      | none => simp [requestsFor, hj] at hr
      | some job => simp [requestsFor, hj] at hr; subst hr; rfl
    | clickRunNow row =>
      cases hj : s.jobs[row]? with
      | none => simp [requestsFor, hj] at hr
      | some job => simp [requestsFor, hj] at hr; subst hr; rfl
    | responded p res => exact absurd rfl (hev p res)
    | changeName v => simp [requestsFor] at hr
    | changeType v => simp [requestsFor] at hr
    | changeTime v => simp [requestsFor] at hr
    | idle ms => simp [requestsFor] at hr
    | jobsArrived data => simp [requestsFor] at hr
    | logsArrived data => simp [requestsFor] at hr
    | rejected p err => simp [requestsFor] at hr
  · intro s ev hq hev
    rw [requestsOf_issued]
    cases ev with
    | responded p res => exact absurd rfl (hev p res)
    | changeName v => simp [Event.isUserAction] at hq
    | changeType v => simp [Event.isUserAction] at hq
    | changeTime v => simp [Event.isUserAction] at hq
    | submitForm => simp [Event.isUserAction] at hq
    | clickToggle row => simp [Event.isUserAction] at hq
    | clickRunNow row => simp [Event.isUserAction] at hq
    | idle ms => rfl
    | jobsArrived data => rfl
    | logsArrived data => rfl
    | rejected p err => rfl
  · intro s ev p hp hnot
    rcases step_pending_origin s ev p hp with h | ⟨h1, h2⟩ | ⟨row, h1, h2⟩ | ⟨row, h1, h2⟩ |
      ⟨q, res, h1, h2, h3⟩
    · exact absurd h hnot
    · exact Or.inl ⟨h2, h1⟩
    · exact Or.inr (Or.inl ⟨h2, row, h1⟩)
    · exact Or.inr (Or.inr (Or.inl ⟨h2, row, h1⟩))
    · exact Or.inr (Or.inr (Or.inr ⟨h3, q, res, h1, h2⟩))

/-- Witness for `refetch_only_after_user_action`: both bodies arrive, a stray
response and a failure are delivered, and a day passes. -/
theorem refetch_only_after_user_action_witness :
    requestsOf (run mounted
      [.jobsArrived [⟨⟨"1"⟩, "backup", "daily", "14:30", true, none, some "2024-01-01T14:30:00"⟩],
        .logsArrived [], .responded .toggleJob ⟨200, ""⟩, .rejected .fetchJobs ⟨"offline"⟩,
        .idle 86400000]).trace = [getJobs, getLogs] :=
  refetch_only_after_user_action.2.1 _ (by decide)

/-- C4 as stated fails: after mounting, with both responses delivered and no
user action, a minute passes, then an hour, then a day, and no further
`GET /jobs` or `GET /logs` is sent. -/
theorem no_polling_counterexample :
    issued (run mounted [.jobsArrived [], .logsArrived []]) (.idle 60000) = [] ∧
    requestsOf (run mounted
      [.jobsArrived [], .logsArrived [], .idle 60000, .idle 3600000, .idle 86400000]).trace =
      [getJobs, getLogs] := by
  decide

/-- C5: after any sequence of events `jobs` is the initial empty list or the
body of one of the `GET /jobs` responses that arrived, and `logs` is empty or
the body of one of the `GET /logs` responses; a step of any other kind leaves
`jobs` (and so every job's `enabled`, `last_run` and `next_run`) and `logs` as
they are. -/
theorem jobs_logs_only_from_responses :
    (∀ evs : List Event,
      ((run mounted evs).jobs = [] ∨ Event.jobsArrived (run mounted evs).jobs ∈ evs) ∧
      ((run mounted evs).logs = [] ∨ Event.logsArrived (run mounted evs).logs ∈ evs)) ∧
    (∀ (s : State) (ev : Event),
      ((step s ev).jobs = s.jobs ∨ ev = .jobsArrived (step s ev).jobs) ∧
      ((step s ev).logs = s.logs ∨ ev = .logsArrived (step s ev).logs)) ∧
    (∀ (s : State) (id : JobId) (res : Response),
      (handleSubmit s).jobs = s.jobs ∧ (handleSubmitResume s res).jobs = s.jobs ∧
      (toggleJob s id).jobs = s.jobs ∧ (toggleJobResume s res).jobs = s.jobs ∧
      (runJobNow s id).jobs = s.jobs ∧ (runJobNowResume s res).2.jobs = s.jobs ∧
      (runJobNow s id).logs = s.logs ∧ (runJobNowResume s res).2.logs = s.logs) := by
  refine ⟨fun evs => ⟨?_, ?_⟩, fun s ev => ⟨step_jobs s ev, step_logs s ev⟩, ?_⟩
  · exact run_jobs evs mounted
  · exact run_logs evs mounted
  · intro s id res
    refine ⟨rfl, rfl, rfl, rfl, rfl, ?_, rfl, ?_⟩ <;>
      cases hok : res.ok <;>
        simp [runJobNowResume, runJobNowTry, hok, runJobNowCatch, fetchJobs, fetchLogs]

/-- C8: `handleSubmit` does not read the response of `POST /jobs`: whatever
status and body it resolves with, the form is reset to its initial value,
`GET /jobs` is sent, nothing is alerted, and the resulting state and view are
the same for any two responses. -/
theorem handleSubmit_ignores_response (s : State) (r1 r2 : Response) :
    handleSubmitResume s r1 = handleSubmitResume s r2 ∧
    step s (.responded .handleSubmit r1) = step s (.responded .handleSubmit r2) ∧
    render (step s (.responded .handleSubmit r1)) =
      render (step s (.responded .handleSubmit r2)) ∧
    (handleSubmitResume s r1).form = [("name", ""), ("type", "hourly"), ("time", "")] ∧
    (handleSubmitResume s r1).trace = s.trace ++ [.request
      { method := .GET, url := "http://localhost:8000/jobs", headers := [], body := none }] ∧
    (handleSubmitResume s r1).jobs = s.jobs ∧
    (handleSubmitResume s r1).logs = s.logs ∧
    (handleSubmitResume s r1).pending = s.pending ++ [.fetchJobs] := by
  have hstep : step s (.responded .handleSubmit r1) = step s (.responded .handleSubmit r2) := by
    by_cases h : Pending.handleSubmit ∈ s.pending <;> simp [step, h, handleSubmitResume]
  exact ⟨rfl, hstep, by rw [hstep], rfl, rfl, rfl, rfl, rfl⟩

/-! ## Rendering: rows, log items and their order -/

/-- C7: the Next Run and Last Run cells are a dash for a null value and show a
date only for a non-null one; a disabled job that satisfies the data-model
invariant shows Next Run as a dash and Enabled as the cross; the tick is shown
exactly when `enabled` is true. -/
theorem renderJob_cells (job : Job) :
    (job.next_run = none → (renderJob job).nextRun = .text "-") ∧
    (job.last_run = none → (renderJob job).lastRun = .text "-") ∧
    (∀ raw, (renderJob job).nextRun = .localeDate raw → job.next_run = some raw) ∧
    (∀ raw, (renderJob job).lastRun = .localeDate raw → job.last_run = some raw) ∧
    ((job.enabled = false → job.next_run = none) → job.enabled = false →
      (renderJob job).nextRun = .text "-" ∧ (renderJob job).enabled = .text "❌") ∧
    ((renderJob job).enabled = .text "✅" ↔ job.enabled = true) := by
  have hdate : ∀ v : Option String, ∀ raw, dateCell v = .localeDate raw → v = some raw := by
    intro v raw h
    cases v with
    | none => simp [dateCell, truthy] at h
    | some x =>
      by_cases hx : truthy (some x) = true
      · simp [dateCell, hx] at h
        rw [h]
      · simp [dateCell, hx] at h
  refine ⟨?_, ?_, ?_, ?_, ?_, ?_⟩
  · intro h
    simp [renderJob, dateCell, h, truthy]
  · intro h
    simp [renderJob, dateCell, h, truthy]
  · intro raw h
    exact hdate _ _ h
  · intro raw h
    exact hdate _ _ h
  · intro hinv hdis
    have hn := hinv hdis
    simp [renderJob, dateCell, hn, hdis, truthy]
  · cases hb : job.enabled <;> simp [renderJob, hb]

/-- C9: two log entries that agree on run time, job name and output render to
the same list item at the same position, whatever their status, id and job
id. -/
theorem renderLog_status_independent (i : Nat) (a b : LogEntry)
    (htime : a.run_time = b.run_time) (hname : a.job_name = b.job_name)
    (hout : a.output = b.output) :
    renderLog i a = renderLog i b := by
  simp [renderLog, htime, hname, hout]

/-- Witness for `renderLog_status_independent`: a successful and a timed-out
entry of different jobs with the same three displayed fields. -/
theorem renderLog_status_independent_witness :
    renderLog 0 ⟨1, ⟨"7"⟩, "backup", "2024-01-01T10:00:00", "done", .Success⟩ =
      renderLog 0 ⟨2, ⟨"x"⟩, "backup", "2024-01-01T10:00:00", "done", .Timeout⟩ :=
  renderLog_status_independent 0 _ _ rfl rfl rfl

/-- The keys of the log items are the positions, in order. -/
theorem renderLogs_keys (logs : List LogEntry) :
    (renderLogs logs).map (fun it => it.key) = List.range logs.length := by
  apply List.ext_getElem?
  intro i
  simp only [renderLogs, List.getElem?_map, List.getElem?_mapIdx, List.getElem?_range]
  by_cases h : i < logs.length
  · simp [h, renderLog, List.getElem?_eq_getElem h]
  · simp [h, List.getElem?_eq_none (Nat.le_of_not_lt h)]
    exact Nat.le_of_not_lt h

/-- C10: for a list of jobs with distinct ids and any list of log entries, the
table body that `App` returns has one row for each job and the log list one
item for each entry; row `i` is keyed by the id of `jobs[i]` and shows its
name, type and time; item `i` is keyed by `i` and shows the run time, the job
name and the output of `logs[i]`; the keys of the rows and of the items are
distinct, so every element is displayed, in the order of the state; and the
state takes both lists from the responses as they are. -/
theorem render_preserves_order (jobs : List Job) (logs : List LogEntry)
    (hids : (jobs.map fun j => j.id.toText).Nodup) :
    (renderJobs jobs).length = jobs.length ∧
    (∀ i : Nat, (renderJobs jobs)[i]? = (jobs[i]?).map renderJob) ∧
    (∀ i : Nat, ((renderJobs jobs)[i]?).map (fun r => (r.key, r.name, r.type, r.time)) =
      (jobs[i]?).map (fun j =>
        (j.id, Content.text j.name, Content.text j.type, Content.text j.time))) ∧
    ((renderJobs jobs).map fun r => r.key.toText).Nodup ∧
    (renderLogs logs).length = logs.length ∧
    (∀ i : Nat, (renderLogs logs)[i]? = (logs[i]?).map fun log =>
      { key := i
        children :=
          [.localeDate log.run_time, .text " — ", .bold log.job_name, .text ": ",
            .text log.output] }) ∧
    (renderLogs logs).map (fun it => it.key) = List.range logs.length ∧
    ((renderLogs logs).map fun it => it.key).Nodup ∧
    (∀ s : State, (render s).rows = renderJobs s.jobs ∧ (render s).items = renderLogs s.logs) ∧
    (∀ s : State, Pending.fetchJobs ∈ s.pending →
      (step s (.jobsArrived jobs)).jobs = jobs ∧
      (render (step s (.jobsArrived jobs))).rows = jobs.map renderJob) ∧
    (∀ s : State, Pending.fetchLogs ∈ s.pending →
      (step s (.logsArrived logs)).logs = logs ∧
      (render (step s (.logsArrived logs))).items = logs.mapIdx renderLog) := by
  refine ⟨?_, ?_, ?_, ?_, ?_, ?_, ?_, ?_, ?_, ?_, ?_⟩
  · simp [renderJobs]
  · intro i
    simp [renderJobs]
  · intro i
    simp only [renderJobs, List.getElem?_map]
    cases jobs[i]? <;> simp [renderJob]
  · have h : ((renderJobs jobs).map fun r => r.key.toText) = jobs.map fun j => j.id.toText := by
      simp [renderJobs, renderJob]
    rw [h]
    exact hids
  · simp [renderLogs]
  · intro i
    simp only [renderLogs, List.getElem?_mapIdx]
    cases logs[i]? <;> simp [renderLog]
  · exact renderLogs_keys logs
  · rw [renderLogs_keys]
    exact List.nodup_range _
  · intro s
    exact ⟨rfl, rfl⟩
  · intro s h
    simp [step, h, render, renderJobs, fetchJobsResume]
  · intro s h
    simp [step, h, render, renderLogs, fetchLogsResume]

/-- Witness for `render_preserves_order`: two jobs with the ids 7 and 8 and two
log entries; the second row and the second item. -/
theorem render_preserves_order_witness :
    (((renderJobs
        [⟨⟨"7"⟩, "backup", "hourly", "15", true, none, none⟩,
          ⟨⟨"8"⟩, "report", "daily", "14:30", false, none, none⟩])[1]?).map
        (fun r => (r.key, r.name, r.type, r.time)) =
      some (⟨"8"⟩, Content.text "report", Content.text "daily", Content.text "14:30")) ∧
    (renderLogs
        [⟨1, ⟨"7"⟩, "backup", "2024-01-01T10:15:00", "ok", .Success⟩,
          ⟨2, ⟨"8"⟩, "report", "2024-01-01T14:30:00", "boom", .Failure⟩])[1]? =
      some
        { key := 1
          children :=
            [.localeDate "2024-01-01T14:30:00", .text " — ", .bold "report", .text ": ",
              .text "boom"] } :=
  have h := render_preserves_order
    [⟨⟨"7"⟩, "backup", "hourly", "15", true, none, none⟩,
      ⟨⟨"8"⟩, "report", "daily", "14:30", false, none, none⟩]
    [⟨1, ⟨"7"⟩, "backup", "2024-01-01T10:15:00", "ok", .Success⟩,
      ⟨2, ⟨"8"⟩, "report", "2024-01-01T14:30:00", "boom", .Failure⟩]
    (by decide)
  ⟨h.2.2.1 1, h.2.2.2.2.2.1 1⟩

/-! ## The next-run calculator -/

/-- C6: for every valid schedule and every reference time, `compute_next_run`
returns a timestamp strictly after the reference time. -/
theorem compute_next_run_gt (spec : ScheduleSpec) (t0 : Int)
    (hvalid : spec.valid = true) : t0 < compute_next_run spec t0 := by
  cases spec with
  | Hourly m =>
    simp only [ScheduleSpec.valid, decide_eq_true_eq] at hvalid
    simp only [compute_next_run]
    split_ifs <;> omega
  | Daily h m =>
    simp only [ScheduleSpec.valid, Bool.and_eq_true, decide_eq_true_eq] at hvalid
    simp only [compute_next_run]
    split_ifs <;> omega
  | Weekly w h m =>
    simp only [ScheduleSpec.valid, Bool.and_eq_true, decide_eq_true_eq] at hvalid
    simp only [compute_next_run, weekdayOf]
    split_ifs <;> omega

/-- Witness for `compute_next_run_gt`: an hourly schedule at minute 15 asked at
exactly 10:15:00 answers 11:15:00 of the same day. -/
theorem compute_next_run_gt_witness :
    compute_next_run (.Hourly 15) (clock 0 10 15 0) = clock 0 11 15 0 ∧
      clock 0 10 15 0 < compute_next_run (.Hourly 15) (clock 0 10 15 0) :=
  ⟨by decide, compute_next_run_gt (.Hourly 15) (clock 0 10 15 0) (by decide)⟩

/-- The result of `compute_next_run` is a trigger point of the schedule. -/
theorem compute_next_run_isTrigger (spec : ScheduleSpec) (t0 : Int)
    (hvalid : spec.valid = true) : isTrigger spec (compute_next_run spec t0) := by
  cases spec with
  | Hourly m =>
    simp only [ScheduleSpec.valid, decide_eq_true_eq] at hvalid
    simp only [compute_next_run, isTrigger]
    split_ifs <;> omega
  | Daily h m =>
    simp only [ScheduleSpec.valid, Bool.and_eq_true, decide_eq_true_eq] at hvalid
    simp only [compute_next_run, isTrigger]
    split_ifs <;> omega
  | Weekly w h m =>
    simp only [ScheduleSpec.valid, Bool.and_eq_true, decide_eq_true_eq] at hvalid
    simp only [compute_next_run, isTrigger, weekdayOf]
    have hw : 0 ≤ w.index ∧ w.index < 7 := by cases w <;> simp [Weekday.index]
    split_ifs <;> constructor <;> omega

/-- No trigger point lies strictly between the reference time and the result
of `compute_next_run`: the result is the smallest one after the reference. -/
theorem compute_next_run_least (spec : ScheduleSpec) (t0 t : Int)
    (hvalid : spec.valid = true) (hafter : t0 < t) (htrig : isTrigger spec t) :
    compute_next_run spec t0 ≤ t := by
  cases spec with
  | Hourly m =>
    simp only [ScheduleSpec.valid, decide_eq_true_eq] at hvalid
    simp only [isTrigger] at htrig
    simp only [compute_next_run]
    split_ifs <;> omega
  | Daily h m =>
    simp only [ScheduleSpec.valid, Bool.and_eq_true, decide_eq_true_eq] at hvalid
    simp only [isTrigger] at htrig
    simp only [compute_next_run]
    split_ifs <;> omega
  | Weekly w h m =>
    simp only [ScheduleSpec.valid, Bool.and_eq_true, decide_eq_true_eq] at hvalid
    simp only [isTrigger, weekdayOf] at htrig
    simp only [compute_next_run, weekdayOf]
    have hw : 0 ≤ w.index ∧ w.index < 7 := by cases w <;> simp [Weekday.index]
    split_ifs <;> omega

/-- The examples of section 8 of the specification, day 4 of the epoch being a
Monday and day 5 a Tuesday. -/
theorem compute_next_run_examples :
    compute_next_run (.Hourly 15) (clock 0 10 20 0) = clock 0 11 15 0 ∧
    compute_next_run (.Hourly 15) (clock 0 10 10 0) = clock 0 10 15 0 ∧
    compute_next_run (.Daily 14 30) (clock 0 15 0 0) = clock 1 14 30 0 ∧
    compute_next_run (.Daily 14 30) (clock 0 14 0 0) = clock 0 14 30 0 ∧
    compute_next_run (.Weekly .Mon 12 45) (clock 5 9 0 0) = clock 11 12 45 0 ∧
    compute_next_run (.Weekly .Mon 12 45) (clock 4 12 0 0) = clock 4 12 45 0 := by
  decide

end JobScheduler
